import Mathlib

/-!
Verification of the branch-mirroring core of `node-clone-git` (`src/index.js`).

The program enumerates a remote repository's branches and checks each selected
branch out into its own subfolder.  The version-control backend (simple-git)
and the filesystem are modelled as follows:

* backend calls (`init`, `remote show`, `remote set-url`, `remote add`,
  `fetch`, `checkout`, `ls-remote`) are represented by the inductive `BCall`;
  their results are supplied by an `Oracle`, a function from the history of
  calls made so far to the current call's result (`Except GitErr String`),
  so a single oracle can make any individual call succeed or fail;
* the filesystem is the list of directories that exist (`St.fs`);
  `fs.existsSync` is list membership and `fs.mkdirSync` prepends;
* the `St` record additionally collects the observations the program logs:
  the trace of backend calls, the raw `ls-remote` text, the parsed branch
  list, the branch names passed to `cloneBranchToFolder` (materialization
  attempts), each attempt's terminal outcome, and warnings.

JavaScript string primitives used by the source (`split` on a one-character
separator, `startsWith`, first-occurrence `replace`, substring `includes`)
are embedded character-list by character-list below.
-/

/-- Errors raised by backend (git) calls. -/
abbrev GitErr := String

/-- The backend capability calls the program makes (simple-git operations). -/
inductive BCall where
  | initRepo (path : String)
  | listRemotes (path : String)
  | setUrl (path name url : String)
  | addRemote (path name url : String)
  | fetch (path : String)
  | checkout (path branch : String)
  | lsRemote (url : String)
  deriving DecidableEq

/-- Terminal state of one branch materialization (spec §4.2). -/
inductive Outcome where
  | skipped
  | done
  | failed (e : GitErr)
  deriving DecidableEq

/-- Backend oracle: maps the history of calls (last entry = current call) to
that call's result, so failures can be injected at any point. -/
abbrev Oracle := List BCall → Except GitErr String

/-- Observable state threaded through a run: the filesystem, the backend-call
trace, and the logged observations. -/
structure St where
  fs : List String
  tr : List BCall
  warned : Bool
  attempts : List String
  outcomes : List Outcome
  discovered : Option (List String)
  listing : Option String
  topError : Option GitErr
  deriving DecidableEq

/-- Initial state of a run: a given filesystem and no observations yet. -/
def initSt (fs0 : List String) : St :=
  { fs := fs0, tr := [], warned := false, attempts := [], outcomes := [],
    discovered := none, listing := none, topError := none }

/-- Make one backend call: record it in the trace and ask the oracle. -/
def callB (ω : Oracle) (s : St) (c : BCall) : St × Except GitErr String :=
  ({ s with tr := s.tr ++ [c] }, ω (s.tr ++ [c]))

/-- The character class of the sanitization regex `/[<>:"\/\\|?*]/g`
(src/index.js:24). -/
def isInvalidChar (c : Char) : Bool :=
  c == '<' || c == '>' || c == ':' || c == '"' || c == '/' ||
  c == '\\' || c == '|' || c == '?' || c == '*'

/-- `sanitizeFolderName` (src/index.js:23-25): replace every character of the
invalid class by an underscore. -/
def sanitizeFolderName (name : String) : String :=
  ⟨name.data.map (fun c => if isInvalidChar c then '_' else c)⟩

/-- `path.join(parent, child)` as used by the source on relative segments. -/
def pathJoin (a b : String) : String :=
  a ++ "/" ++ b

/-- The target folder computed for a branch (src/index.js:30-31). -/
def targetPath (parent branch : String) : String :=
  pathJoin parent (sanitizeFolderName branch)

/-- Character-list core of JavaScript `String.prototype.includes`. -/
def jsIncludesL (l pat : List Char) : Bool :=
  l.tails.any (fun t => pat.isPrefixOf t)

/-- JavaScript `String.prototype.includes`: substring containment. -/
def jsIncludes (s pat : String) : Bool :=
  jsIncludesL s.data pat.data

/-- The create-or-repoint decision (src/index.js:49 and 89): a substring test
for `origin` on the raw `git remote show` output. -/
def chooseSetUrl (remotesText : String) : Bool :=
  jsIncludes remotesText "origin"

/-- JavaScript `String.prototype.startsWith`. -/
def jsStartsWith (s pre : String) : Bool :=
  pre.data.isPrefixOf s.data

/-- Split a character list at every occurrence of `c`; `acc` holds the
(reversed) current field.  Mirrors JavaScript `split` with a one-character
separator: no occurrence gives one field, a trailing separator an empty one. -/
def splitOnCharAux (c : Char) : List Char → List Char → List (List Char)
  | [], acc => [acc.reverse]
  | x :: xs, acc =>
    if x == c then acc.reverse :: splitOnCharAux c xs []
    else splitOnCharAux c xs (x :: acc)

/-- JavaScript `String.prototype.split` with a one-character separator. -/
def jsSplitChar (s : String) (c : Char) : List String :=
  (splitOnCharAux c s.data []).map (fun l => ⟨l⟩)

/-- Replace the first occurrence of `pat` in the list by `rep`
(the core of JavaScript `String.prototype.replace` with a string pattern). -/
def replaceFirstL (pat rep : List Char) : List Char → List Char
  | [] => if pat.isPrefixOf ([] : List Char) then rep else []
  | c :: rest =>
    if pat.isPrefixOf (c :: rest) then rep ++ (c :: rest).drop pat.length
    else c :: replaceFirstL pat rep rest

/-- JavaScript `String.prototype.replace` with a string pattern: replaces the
first occurrence only. -/
def jsReplaceFirst (s pat rep : String) : String :=
  ⟨replaceFirstL pat.data rep.data s.data⟩

/-- Branch-name derivation from the raw `ls-remote` text (src/index.js:108-112):
split into lines, take the second tab-separated field, keep truthy fields that
start with `refs/heads/`, and replace that prefix by the empty string. -/
def parseBranchNames (text : String) : List String :=
  (((jsSplitChar text '\n').map
      (fun line => (jsSplitChar line '\t')[1]?)).filter
    (fun b? => b?.any (fun b => !(b == "") && jsStartsWith b "refs/heads/"))).filterMap
    (fun b? => b?.map (fun b => jsReplaceFirst b "refs/heads/" ""))

/-- The parse as §6 of the spec words it: split lines, split each on tab and
keep the second field, filter for the `refs/heads/` prefix, strip that prefix,
preserving order.  Stated separately to compare with `parseBranchNames`. -/
def parseBranchNamesSpec (text : String) : List String :=
  (((jsSplitChar text '\n').filterMap
      (fun line => (jsSplitChar line '\t')[1]?)).filter
    (fun b => jsStartsWith b "refs/heads/")).map
    (fun b => ⟨b.data.drop ("refs/heads/" : String).data.length⟩)

/-- `await` on a state-and-result pair: a rejected promise short-circuits,
a resolved one feeds its value to the continuation. -/
def awaitE {α β : Type} (x : St × Except GitErr α)
    (k : St → α → St × Except GitErr β) : St × Except GitErr β :=
  match x with
  | (s, .error e) => (s, .error e)
  | (s, .ok a) => k s a

/-- `try`/`catch` on a state-and-result pair: a rejected body is handed to the
catch handler, a resolved one is returned as is. -/
def catchWith {α : Type} (x : St × Except GitErr α)
    (h : St → GitErr → St × Except GitErr α) : St × Except GitErr α :=
  match x with
  | (s, .ok a) => (s, .ok a)
  | (s, .error e) => h s e

/-- The remote create-or-repoint step (src/index.js:48-57 and 88-97): list the
remotes, then `set-url` if the raw text mentions `origin`, else `add`. -/
def configureOrigin (ω : Oracle) (path repoUrl : String) (s : St) :
    St × Except GitErr Unit :=
  awaitE (callB ω s (.listRemotes path)) (fun s1 remotes =>
    let c : BCall :=
      if chooseSetUrl remotes then .setUrl path "origin" repoUrl
      else .addRemote path "origin" repoUrl
    awaitE (callB ω s1 c) (fun s2 _ => (s2, .ok ())))

/-- Body of `cloneBranchToFolder` (src/index.js:29-66), the code inside `try`:
existence gate, mkdir, init, remote configuration, fetch, checkout. -/
def tryCloneBranch (ω : Oracle) (repoUrl branchName parentFolderPath : String)
    (s : St) : St × Except GitErr Outcome :=
  let branchFolderPath := targetPath parentFolderPath branchName
  if s.fs.contains branchFolderPath then
    (s, .ok .skipped)
  else
    let s1 : St := { s with fs := branchFolderPath :: s.fs }
    awaitE (callB ω s1 (.initRepo branchFolderPath)) (fun s2 _ =>
      awaitE (configureOrigin ω branchFolderPath repoUrl s2) (fun s3 _ =>
        awaitE (callB ω s3 (.fetch branchFolderPath)) (fun s4 _ =>
          awaitE (callB ω s4 (.checkout branchFolderPath branchName)) (fun s5 _ =>
            (s5, .ok .done)))))

/-- `cloneBranchToFolder` with its catch (src/index.js:67-69): any failure of
the body ends as a logged `failed` outcome; the function itself never raises. -/
def cloneBranchToFolder (ω : Oracle) (repoUrl branchName parentFolderPath : String)
    (s : St) : St × Except GitErr Outcome :=
  catchWith (tryCloneBranch ω repoUrl branchName parentFolderPath s)
    (fun s' e => (s', .ok (.failed e)))

/-- The sequential for-loop over branch names (src/index.js:123-125), recording
each materialization attempt and its terminal outcome. -/
def mirrorLoop (ω : Oracle) (repoUrl repoFolderPath : String) :
    List String → St → St × Except GitErr Unit
  | [], s => (s, .ok ())
  | b :: rest, s =>
    let s1 : St := { s with attempts := s.attempts ++ [b] }
    awaitE (cloneBranchToFolder ω repoUrl b repoFolderPath s1) (fun s2 o =>
      mirrorLoop ω repoUrl repoFolderPath rest { s2 with outcomes := s2.outcomes ++ [o] })

/-- Repository-folder setup (src/index.js:75-101): ensure the folder, init,
configure `origin`, and run `ls-remote`, returning its raw text. -/
def repoSetup (ω : Oracle) (repoUrl repoFolderPath : String) (s : St) :
    St × Except GitErr String :=
  let s0 : St :=
    if s.fs.contains repoFolderPath then s
    else { s with fs := repoFolderPath :: s.fs }
  awaitE (callB ω s0 (.initRepo repoFolderPath)) (fun s1 _ =>
    awaitE (configureOrigin ω repoFolderPath repoUrl s1) (fun s2 _ =>
      awaitE (callB ω s2 (.lsRemote repoUrl)) (fun s3 remoteBranches =>
        (s3, .ok remoteBranches))))

/-- Branch discovery and selection (src/index.js:103-130): warn-and-return on
an empty listing or an empty branch list; otherwise loop over all branches, or
clone `main` if present else `master`. -/
def afterListing (ω : Oracle) (repoUrl repoFolderPath : String)
    (cloneAllBranches : Bool) (remoteBranches : String) (s : St) :
    St × Except GitErr Unit :=
  let s4 : St := { s with listing := some remoteBranches }
  if remoteBranches == "" then
    ({ s4 with warned := true }, .ok ())
  else
    let remoteBranchNames := parseBranchNames remoteBranches
    let s5 : St := { s4 with discovered := some remoteBranchNames }
    if remoteBranchNames.isEmpty then
      ({ s5 with warned := true }, .ok ())
    else
      if cloneAllBranches then
        mirrorLoop ω repoUrl repoFolderPath remoteBranchNames s5
      else
        let mainBranch := if remoteBranchNames.contains "main" then "main" else "master"
        let s6 : St := { s5 with attempts := s5.attempts ++ [mainBranch] }
        awaitE (cloneBranchToFolder ω repoUrl mainBranch repoFolderPath s6) (fun s7 o =>
          ({ s7 with outcomes := s7.outcomes ++ [o] }, .ok ()))

/-- Body of `cloneRepository` (src/index.js:74-130), the code inside `try`. -/
def tryCloneRepository (ω : Oracle) (repoUrl parentFolderPath repoName : String)
    (cloneAllBranches : Bool) (s : St) : St × Except GitErr Unit :=
  let repoFolderPath := pathJoin parentFolderPath repoName
  awaitE (repoSetup ω repoUrl repoFolderPath s) (fun s3 remoteBranches =>
    afterListing ω repoUrl repoFolderPath cloneAllBranches remoteBranches s3)

/-- `cloneRepository` with its catch (src/index.js:132-134): a failure of the
body terminates at the error log; the function itself never raises. -/
def cloneRepository (ω : Oracle) (repoUrl parentFolderPath repoName : String)
    (cloneAllBranches : Bool) (fs0 : List String) : St × Except GitErr Unit :=
  catchWith
    (tryCloneRepository ω repoUrl parentFolderPath repoName cloneAllBranches (initSt fs0))
    (fun s e => ({ s with topError := some e }, .ok ()))

/-- Join rendered remote names with newlines (backend model helper). -/
def joinLines : List (List Char) → List Char
  | [] => []
  | [l] => l
  | l :: ls => l ++ '\n' :: joinLines ls

/-- Modelled from the spec: the backend's remote table for one folder, as the
capability interface of §6 describes it — `listRemotes` renders the configured
remotes' names (so a remote reported after `addRemote`), `setRemoteUrl`
repoints the named remote, `addRemote` appends a new one. -/
def listRemotesText (rs : List (String × String)) : String :=
  ⟨joinLines (rs.map (fun r => r.1.data))⟩

/-- Modelled from the spec (§6 `setRemoteUrl`): update the URL of every
configured remote with the given name. -/
def gitSetUrl (rs : List (String × String)) (name url : String) :
    List (String × String) :=
  rs.map (fun r => if r.1 == name then (name, url) else r)

/-- Modelled from the spec (§6 `addRemote`): append a remote. -/
def gitAddRemote (rs : List (String × String)) (name url : String) :
    List (String × String) :=
  rs ++ [(name, url)]

/-- The source's create-or-repoint step (src/index.js:88-97) run against the
modelled remote table: `set-url` if the rendered listing mentions `origin`,
else `add`. -/
def configureOriginModel (rs : List (String × String)) (repoUrl : String) :
    List (String × String) :=
  if chooseSetUrl (listRemotesText rs) then gitSetUrl rs "origin" repoUrl
  else gitAddRemote rs "origin" repoUrl

/-- The remotes named `origin` in a remote table. -/
def originEntries (rs : List (String × String)) : List (String × String) :=
  rs.filter (fun r => r.1 == "origin")

/-- Oracle whose every call succeeds with empty output. -/
def okOracle : Oracle := fun _ => .ok ""

/-- Oracle for a remote whose only branch is `develop`: `ls-remote` reports it,
and checking out the nonexistent `master` fails. -/
def oracleOnlyDevelop : Oracle := fun h =>
  match h.getLast? with
  | some (.lsRemote _) => .ok "h1\trefs/heads/develop\n"
  | some (.checkout _ "master") => .error "pathspec master did not match"
  | _ => .ok ""

/-- Oracle for a remote with the two branches `feat/a` and `feat:a`, whose
sanitized folder names collide. -/
def oracleColliding : Oracle := fun h =>
  match h.getLast? with
  | some (.lsRemote _) => .ok "h1\trefs/heads/feat/a\nh2\trefs/heads/feat:a\n"
  | _ => .ok ""

/-- Oracle for a remote with branches `main` and `x`, everything succeeding. -/
def oracleMainX : Oracle := fun h =>
  match h.getLast? with
  | some (.lsRemote _) => .ok "h1\trefs/heads/main\nh2\trefs/heads/x\n"
  | _ => .ok ""

/-- Oracle for a remote with branches `a` and `b`, everything succeeding. -/
def oracleAB : Oracle := fun h =>
  match h.getLast? with
  | some (.lsRemote _) => .ok "h1\trefs/heads/a\nh2\trefs/heads/b\n"
  | _ => .ok ""

/-- Oracle failing exactly the checkout of branch `b2`. -/
def oracleFailB2 : Oracle := fun h =>
  match h.getLast? with
  | some (.checkout _ "b2") => .error "ck"
  | _ => .ok ""

/-- Oracle whose `remote show` output is `my-origin`: a remote table that
mentions `origin` only inside another remote's name. -/
def oracleMyOrigin : Oracle := fun h =>
  match h.getLast? with
  | some (.listRemotes _) => .ok "my-origin"
  | _ => .ok ""

/-! ## Structural lemmas about the embedded operations -/

@[simp]
theorem awaitE_ok {α β : Type} (s : St) (a : α) (k : St → α → St × Except GitErr β) :
    awaitE (s, .ok a) k = k s a := rfl

@[simp]
theorem awaitE_error {α β : Type} (s : St) (e : GitErr) (k : St → α → St × Except GitErr β) :
    awaitE (s, .error e) k = (s, .error e) := rfl

@[simp]
theorem catchWith_ok {α : Type} (s : St) (a : α) (h : St → GitErr → St × Except GitErr α) :
    catchWith (s, .ok a) h = (s, .ok a) := rfl

@[simp]
theorem catchWith_error {α : Type} (s : St) (e : GitErr) (h : St → GitErr → St × Except GitErr α) :
    catchWith (s, .error e) h = h s e := rfl

/-- `configureOrigin` only extends the trace: every other field is kept. -/
theorem configureOrigin_shape (ω : Oracle) (p u : String) (s : St) :
    ∃ t r, configureOrigin ω p u s = ({ s with tr := t }, r) := by
  unfold configureOrigin callB
  cases ω (s.tr ++ [BCall.listRemotes p]) with
  | error e => exact ⟨_, _, rfl⟩
  | ok remotes =>
    cases hc : chooseSetUrl remotes <;> simp only [awaitE_ok, hc, if_true, if_false, Bool.false_eq_true]
    · cases ω ((s.tr ++ [BCall.listRemotes p]) ++ [BCall.addRemote p "origin" u]) with
      | error e => exact ⟨_, _, rfl⟩
      | ok _ => exact ⟨_, _, rfl⟩
    · cases ω ((s.tr ++ [BCall.listRemotes p]) ++ [BCall.setUrl p "origin" u]) with
      | error e => exact ⟨_, _, rfl⟩
      | ok _ => exact ⟨_, _, rfl⟩

/-- `tryCloneBranch` only touches the filesystem and the trace. -/
theorem tryCloneBranch_shape (ω : Oracle) (u b p : String) (s : St) :
    ∃ f t r, tryCloneBranch ω u b p s = ({ s with fs := f, tr := t }, r) := by
  unfold tryCloneBranch callB
  by_cases hex : s.fs.contains (targetPath p b)
  · simp only [hex, if_true]
    exact ⟨s.fs, s.tr, .ok .skipped, rfl⟩
  · simp only [hex, if_false, Bool.false_eq_true]
    cases ω (s.tr ++ [BCall.initRepo (targetPath p b)]) with
    | error e => exact ⟨_, _, _, rfl⟩
    | ok _ =>
      simp only [awaitE_ok]
      obtain ⟨t2, r2, hco⟩ := configureOrigin_shape ω (targetPath p b) u
        { s with fs := targetPath p b :: s.fs, tr := s.tr ++ [BCall.initRepo (targetPath p b)] }
      rw [hco]
      cases r2 with
      | error e => exact ⟨_, _, _, rfl⟩
      | ok _ =>
        simp only [awaitE_ok]
        cases ω (t2 ++ [BCall.fetch (targetPath p b)]) with
        | error e => exact ⟨_, _, _, rfl⟩
        | ok _ =>
          simp only [awaitE_ok]
          cases ω ((t2 ++ [BCall.fetch (targetPath p b)]) ++ [BCall.checkout (targetPath p b) b]) with
          | error e => exact ⟨_, _, _, rfl⟩
          | ok _ => exact ⟨_, _, _, rfl⟩

/-- `cloneBranchToFolder` only touches the filesystem and the trace, and its
result is always `ok`: the catch turns every body error into an outcome. -/
theorem cloneBranchToFolder_shape (ω : Oracle) (u b p : String) (s : St) :
    ∃ f t o, cloneBranchToFolder ω u b p s = ({ s with fs := f, tr := t }, .ok o) := by
  unfold cloneBranchToFolder
  obtain ⟨f, t, r, h⟩ := tryCloneBranch_shape ω u b p s
  rw [h]
  cases r with
  | error e => exact ⟨f, t, .failed e, rfl⟩
  | ok o => exact ⟨f, t, o, rfl⟩

/-- `repoSetup` only touches the filesystem and the trace. -/
theorem repoSetup_shape (ω : Oracle) (u p : String) (s : St) :
    ∃ f t r, repoSetup ω u p s = ({ s with fs := f, tr := t }, r) := by
  unfold repoSetup callB
  by_cases hex : s.fs.contains p <;>
    simp only [hex, if_true, if_false, Bool.false_eq_true]
  · cases ω (s.tr ++ [BCall.initRepo p]) with
    | error e => exact ⟨_, _, _, rfl⟩
    | ok _ =>
      simp only [awaitE_ok]
      obtain ⟨t2, r2, hco⟩ := configureOrigin_shape ω p u
        { s with tr := s.tr ++ [BCall.initRepo p] }
      rw [show ({ s with tr := s.tr ++ [BCall.initRepo p] } : St)
            = { s with fs := s.fs, tr := s.tr ++ [BCall.initRepo p] } from rfl] at hco
      rw [hco]
      cases r2 with
      | error e => exact ⟨_, _, _, rfl⟩
      | ok _ =>
        simp only [awaitE_ok]
        cases ω (t2 ++ [BCall.lsRemote u]) with
        | error e => exact ⟨_, _, _, rfl⟩
        | ok _ => exact ⟨_, _, _, rfl⟩
  · cases ω (s.tr ++ [BCall.initRepo p]) with
    | error e => exact ⟨_, _, _, rfl⟩
    | ok _ =>
      simp only [awaitE_ok]
      obtain ⟨t2, r2, hco⟩ := configureOrigin_shape ω p u
        { s with fs := p :: s.fs, tr := s.tr ++ [BCall.initRepo p] }
      rw [hco]
      cases r2 with
      | error e => exact ⟨_, _, _, rfl⟩
      | ok _ =>
        simp only [awaitE_ok]
        cases ω (t2 ++ [BCall.lsRemote u]) with
        | error e => exact ⟨_, _, _, rfl⟩
        | ok _ => exact ⟨_, _, _, rfl⟩

/-- The loop records one attempt and one terminal outcome per branch, touching
otherwise only the filesystem and the trace, and never raises. -/
theorem mirrorLoop_spec (ω : Oracle) (u p : String) :
    ∀ (names : List String) (s : St), ∃ f t os,
      mirrorLoop ω u p names s
          = ({ s with fs := f, tr := t, attempts := s.attempts ++ names,
                      outcomes := s.outcomes ++ os }, .ok ())
        ∧ os.length = names.length := by
  intro names
  induction names with
  | nil =>
    intro s
    exact ⟨s.fs, s.tr, [], by simp [mirrorLoop], rfl⟩
  | cons b rest ih =>
    intro s
    obtain ⟨f1, t1, o, hcb⟩ :=
      cloneBranchToFolder_shape ω u b p { s with attempts := s.attempts ++ [b] }
    simp only [mirrorLoop]
    rw [hcb]
    simp only [awaitE_ok]
    obtain ⟨f2, t2, os, hrec, hlen⟩ := ih
      { s with fs := f1, tr := t1, attempts := s.attempts ++ [b],
               outcomes := s.outcomes ++ [o] }
    rw [hrec]
    refine ⟨f2, t2, o :: os, ?_, by simp [hlen]⟩
    simp [List.append_assoc]

/-- Characterization of branch discovery and selection: it never raises, it
records the raw listing, and the attempts it appends are exactly the selection
policy's choice, with the warn-and-return cases appending none. -/
theorem afterListing_char (ω : Oracle) (u p : String) (all : Bool) (t : String)
    (s s' : St) (r' : Except GitErr Unit)
    (hx : afterListing ω u p all t s = (s', r')) :
    r' = .ok () ∧ s'.listing = some t ∧
      (t = "" → s'.warned = true ∧ s'.attempts = s.attempts ∧ s'.discovered = s.discovered) ∧
      (¬ t = "" → s'.discovered = some (parseBranchNames t) ∧
        (parseBranchNames t = [] → s'.warned = true ∧ s'.attempts = s.attempts) ∧
        (¬ parseBranchNames t = [] → s'.attempts = s.attempts ++
          (if all then parseBranchNames t
           else [if (parseBranchNames t).contains "main" then "main" else "master"]))) := by
  unfold afterListing at hx
  by_cases ht : t = ""
  · subst ht
    simp only [beq_self_eq_true, if_true] at hx
    injection hx with h1 h2
    subst h1
    subst h2
    exact ⟨rfl, rfl, fun _ => ⟨rfl, rfl, rfl⟩, fun hc => absurd rfl hc⟩
  · have hbeq : (t == "") = false := beq_eq_false_iff_ne.mpr ht
    simp only [hbeq, Bool.false_eq_true, if_false] at hx
    by_cases hn : parseBranchNames t = []
    · have hie : (parseBranchNames t).isEmpty = true := by simp [hn]
      simp only [hie, if_true] at hx
      injection hx with h1 h2
      subst h1
      subst h2
      exact ⟨rfl, rfl, fun h => absurd h ht,
        fun _ => ⟨rfl, fun _ => ⟨rfl, rfl⟩, fun hc => absurd hn hc⟩⟩
    · have hie : (parseBranchNames t).isEmpty = false := by
        cases hq : parseBranchNames t with
        | nil => exact absurd hq hn
        | cons a l => rfl
      simp only [hie, Bool.false_eq_true, if_false] at hx
      cases all
      · simp only [Bool.false_eq_true, if_false] at hx
        obtain ⟨f1, t1, o, hcb⟩ := cloneBranchToFolder_shape ω u
          (if (parseBranchNames t).contains "main" then "main" else "master") p
          { s with listing := some t, discovered := some (parseBranchNames t),
                   attempts := s.attempts ++
                     [if (parseBranchNames t).contains "main" then "main" else "master"] }
        rw [hcb] at hx
        simp only [awaitE_ok] at hx
        injection hx with h1 h2
        subst h1
        subst h2
        refine ⟨rfl, rfl, fun h => absurd h ht,
          fun _ => ⟨rfl, fun h => absurd h hn, fun _ => by simp⟩⟩
      · simp only [if_true] at hx
        obtain ⟨f2, t2, os, hml, hlen⟩ := mirrorLoop_spec ω u p (parseBranchNames t)
          { s with listing := some t, discovered := some (parseBranchNames t) }
        rw [hml] at hx
        injection hx with h1 h2
        subst h1
        subst h2
        refine ⟨rfl, rfl, fun h => absurd h ht,
          fun _ => ⟨rfl, fun h => absurd h hn, fun _ => by simp⟩⟩

/-- Characterization of a whole mirror run: it never raises; when the listing
step is never reached or yields no data or no branches, no materialization
attempt is made; otherwise the attempts are exactly the selection policy's
choice on the parsed branch list. -/
theorem cloneRepository_char (ω : Oracle) (url parent rn : String) (all : Bool)
    (fs0 : List String) :
    (cloneRepository ω url parent rn all fs0).2 = .ok () ∧
    ((cloneRepository ω url parent rn all fs0).1.listing = none →
      (cloneRepository ω url parent rn all fs0).1.attempts = [] ∧
      (cloneRepository ω url parent rn all fs0).1.discovered = none ∧
      (cloneRepository ω url parent rn all fs0).1.warned = false) ∧
    (∀ t, (cloneRepository ω url parent rn all fs0).1.listing = some t →
      ((t = "" ∨ parseBranchNames t = []) →
        (cloneRepository ω url parent rn all fs0).1.warned = true ∧
        (cloneRepository ω url parent rn all fs0).1.attempts = []) ∧
      (¬ t = "" →
        (cloneRepository ω url parent rn all fs0).1.discovered = some (parseBranchNames t))) ∧
    (∀ bs, (cloneRepository ω url parent rn all fs0).1.discovered = some bs →
      (cloneRepository ω url parent rn all fs0).1.attempts =
        (if bs = [] then []
         else if all then bs
         else [if bs.contains "main" then "main" else "master"])) := by
  unfold cloneRepository tryCloneRepository
  dsimp only
  obtain ⟨f, tr, r, hrs⟩ := repoSetup_shape ω url (pathJoin parent rn) (initSt fs0)
  rw [hrs]
  cases r with
  | error e =>
    simp only [awaitE_error, catchWith_error]
    refine ⟨by trivial, fun _ => by simp [initSt], fun t hlist => ?_, fun bs hdisc => ?_⟩
    · exact absurd hlist (by simp [initSt])
    · exact absurd hdisc (by simp [initSt])
  | ok t0 =>
    simp only [awaitE_ok]
    cases hal : afterListing ω url (pathJoin parent rn) all t0
        { initSt fs0 with fs := f, tr := tr } with
    | mk s' r' =>
      obtain ⟨hok, hlst, hemp, hnemp⟩ :=
        afterListing_char ω url (pathJoin parent rn) all t0 _ s' r' hal
      subst hok
      simp only [catchWith_ok]
      refine ⟨by trivial, fun h => ?_, fun t hlist => ?_, fun bs hdisc => ?_⟩
      · rw [hlst] at h
        exact absurd h (by simp)
      · rw [hlst] at hlist
        have ht : t = t0 := by
          injection hlist with h
          exact h.symm
        subst ht
        constructor
        · rintro (h0 | h0)
          · obtain ⟨hw, ha, _⟩ := hemp h0
            exact ⟨hw, by rw [ha]; simp [initSt]⟩
          · by_cases hte : t = ""
            · obtain ⟨hw, ha, _⟩ := hemp hte
              exact ⟨hw, by rw [ha]; simp [initSt]⟩
            · obtain ⟨_, hem, _⟩ := hnemp hte
              obtain ⟨hw, ha⟩ := hem h0
              exact ⟨hw, by rw [ha]; simp [initSt]⟩
        · intro hte
          exact (hnemp hte).1
      · by_cases hte : t0 = ""
        · obtain ⟨_, _, hd⟩ := hemp hte
          rw [hd] at hdisc
          exact absurd hdisc (by simp [initSt])
        · obtain ⟨hd, hem, hne⟩ := hnemp hte
          rw [hd] at hdisc
          have hbs : bs = parseBranchNames t0 := by
            injection hdisc with h
            exact h.symm
          subst hbs
          by_cases hn : parseBranchNames t0 = []
          · obtain ⟨_, ha⟩ := hem hn
            rw [ha]
            simp [hn, initSt]
          · rw [hne hn]
            simp [hn, initSt]

/-! ## Parsing and sanitization -/

/-- On a field that starts with `refs/heads/`, the source's first-occurrence
replace by the empty string is exactly the spec's prefix strip. -/
theorem jsReplaceFirst_of_startsWith (b : String)
    (h : jsStartsWith b "refs/heads/" = true) :
    jsReplaceFirst b "refs/heads/" ""
      = ⟨b.data.drop ("refs/heads/" : String).data.length⟩ := by
  unfold jsStartsWith at h
  unfold jsReplaceFirst
  cases hd : b.data with
  | nil =>
    rw [hd] at h
    exact absurd h (by decide)
  | cons c rest =>
    rw [hd] at h
    simp only [replaceFirstL, h, if_true, show ("" : String).data = [] from rfl,
      List.nil_append]

/-- The two parsing pipelines agree line by line. -/
theorem parse_chain (g : String → Option String) (ls : List String) :
    ((ls.map g).filter
        (fun b? => b?.any (fun b => !(b == "") && jsStartsWith b "refs/heads/"))).filterMap
      (fun b? => b?.map (fun b => jsReplaceFirst b "refs/heads/" ""))
    = (((ls.filterMap g).filter (fun b => jsStartsWith b "refs/heads/")).map
        (fun b => ⟨b.data.drop ("refs/heads/" : String).data.length⟩)) := by
  induction ls with
  | nil => rfl
  | cons hd tl ih =>
    cases hg : g hd with
    | none =>
      simp only [List.map_cons, List.filterMap_cons, List.filter_cons, hg,
        Option.any_none, Bool.false_eq_true, if_false]
      exact ih
    | some b =>
      by_cases hsw : jsStartsWith b "refs/heads/" = true
      · have hne : (b == "") = false := by
          by_cases hb : b = ""
          · subst hb
            exact absurd hsw (by decide)
          · exact beq_eq_false_iff_ne.mpr hb
        simp only [List.map_cons, List.filterMap_cons, List.filter_cons, hg,
          Option.any_some, hne, hsw, Bool.not_false, Bool.true_and, if_true,
          Option.map_some', List.map_cons]
        rw [jsReplaceFirst_of_startsWith b hsw]
        rw [ih]
      · have hswf : jsStartsWith b "refs/heads/" = false :=
          Bool.eq_false_iff.mpr hsw
        simp only [List.map_cons, List.filterMap_cons, List.filter_cons, hg,
          Option.any_some, hswf, Bool.and_false, Bool.false_eq_true, if_false]
        exact ih

/-- C7: for every raw ref-listing text the derived branch list is obtained by
splitting into lines, keeping each line's second tab-separated field, keeping
fields with the `refs/heads/` prefix, and stripping that prefix in order; in
particular the given example parses to `["main", "dev"]`. -/
theorem c7_ref_listing_parse :
    (∀ text : String, parseBranchNames text = parseBranchNamesSpec text) ∧
    parseBranchNames "<hash1>\trefs/heads/main\n<hash2>\trefs/tags/v1\n<hash3>\trefs/heads/dev\n"
      = ["main", "dev"] := by
  constructor
  · intro text
    unfold parseBranchNames parseBranchNamesSpec
    exact parse_chain (fun line => (jsSplitChar line '\t')[1]?) (jsSplitChar text '\n')
  · decide

/-- C8: sanitized folder names contain none of the nine forbidden characters,
and a name containing none of them is returned unchanged. -/
theorem c8_sanitization (name : String) :
    ((sanitizeFolderName name).data.all (fun c => !(isInvalidChar c)) = true) ∧
    (name.data.all (fun c => !(isInvalidChar c)) = true → sanitizeFolderName name = name) := by
  constructor
  · unfold sanitizeFolderName
    rw [show (⟨name.data.map (fun c => if isInvalidChar c then '_' else c)⟩ : String).data
          = name.data.map (fun c => if isInvalidChar c then '_' else c) from rfl]
    rw [List.all_map]
    rw [List.all_eq_true]
    intro c _
    by_cases hc : isInvalidChar c = true
    · simp only [Function.comp, hc, if_true]
      decide
    · simp [Function.comp, Bool.eq_false_iff.mpr hc]
  · intro h
    unfold sanitizeFolderName
    have hmap : name.data.map (fun c => if isInvalidChar c then '_' else c) = name.data := by
      conv_rhs => rw [← List.map_id name.data]
      apply List.map_congr_left
      intro a ha
      have hn := List.all_eq_true.mp h a ha
      have : isInvalidChar a = false := by
        cases hq : isInvalidChar a
        · rfl
        · rw [hq] at hn
          exact absurd hn (by decide)
      simp [this]
    rw [hmap]

/-- C8 witness: a name with forbidden characters sanitizes to a clean name,
and a clean name is unchanged. -/
theorem c8_sanitization_witness :
    ((sanitizeFolderName "a<b|c*").data.all (fun c => !(isInvalidChar c)) = true) ∧
    sanitizeFolderName "abc" = "abc" :=
  ⟨(c8_sanitization "a<b|c*").1, (c8_sanitization "abc").2 (by decide)⟩

/-! ## Claims about the mirror operation -/

/-- Appending a folder name under a fixed parent is injective. -/
theorem pathJoin_right_injective (P : String) : Function.Injective (pathJoin P) := by
  intro x y h
  unfold pathJoin at h
  have hd := congrArg String.data h
  rw [String.data_append, String.data_append, String.data_append, String.data_append] at hd
  exact String.ext (List.append_cancel_left hd)

/-- C2: if the sanitized target folder already exists, `cloneBranchToFolder`
returns immediately with outcome Skipped: the state — filesystem, trace of
backend calls, and every observation — is exactly the input state, so zero
backend calls are made and the folder is untouched. -/
theorem c2_skip_existing_folder (ω : Oracle) (repoUrl branchName parentFolderPath : String)
    (s : St) (h : s.fs.contains (targetPath parentFolderPath branchName) = true) :
    cloneBranchToFolder ω repoUrl branchName parentFolderPath s = (s, .ok .skipped) := by
  unfold cloneBranchToFolder tryCloneBranch
  have hm : targetPath parentFolderPath branchName ∈ s.fs := by simpa using h
  simp [hm]

/-- C2 witness: a concrete run against an existing `p/feat_a` folder. -/
theorem c2_skip_existing_folder_witness :
    cloneBranchToFolder okOracle "u" "feat/a" "p" (initSt ["p/feat_a"])
      = (initSt ["p/feat_a"], .ok .skipped) :=
  c2_skip_existing_folder okOracle "u" "feat/a" "p" (initSt ["p/feat_a"]) (by decide)

/-- C4: for every oracle — in particular one failing any backend call — the
per-branch operation resolves with an outcome and the mirror operation
resolves with `ok`: no error is re-raised past either component boundary. -/
theorem c4_errors_terminate_at_boundary :
    (∀ (ω : Oracle) (repoUrl branchName parentFolderPath : String) (s : St),
      ∃ s' o, cloneBranchToFolder ω repoUrl branchName parentFolderPath s
        = (s', Except.ok o)) ∧
    (∀ (ω : Oracle) (repoUrl parentFolderPath repoName : String) (all : Bool)
      (fs0 : List String),
      (cloneRepository ω repoUrl parentFolderPath repoName all fs0).2 = Except.ok ()) := by
  constructor
  · intro ω u b p s
    obtain ⟨f, t, o, h⟩ := cloneBranchToFolder_shape ω u b p s
    exact ⟨_, o, h⟩
  · intro ω u p rn all fs0
    exact (cloneRepository_char ω u p rn all fs0).1

/-- C5: for every oracle the loop attempts every branch in order and records
one terminal outcome per branch, never aborting; in particular when branch 2
of 3 fails at checkout, branches 1 and 3 still reach `done`. -/
theorem c5_isolated_failure :
    (∀ (ω : Oracle) (repoUrl repoFolderPath : String) (names : List String) (s : St),
      (mirrorLoop ω repoUrl repoFolderPath names s).1.attempts = s.attempts ++ names ∧
      (mirrorLoop ω repoUrl repoFolderPath names s).1.outcomes.length
        = s.outcomes.length + names.length ∧
      (mirrorLoop ω repoUrl repoFolderPath names s).2 = Except.ok ()) ∧
    (mirrorLoop oracleFailB2 "u" "p" ["b1", "b2", "b3"] (initSt [])).1.outcomes
      = [Outcome.done, Outcome.failed "ck", Outcome.done] := by
  constructor
  · intro ω u p names s
    obtain ⟨f, t, os, h, hlen⟩ := mirrorLoop_spec ω u p names s
    rw [h]
    exact ⟨rfl, by simp [hlen], rfl⟩
  · decide

/-- C9: whenever a run's remote listing came back empty, or parsed to an empty
branch list, the run warns, makes no materialization attempt, and completes
normally. -/
theorem c9_empty_listing_soft_fail (ω : Oracle) (repoUrl parentFolderPath repoName : String)
    (all : Bool) (fs0 : List String) (t : String)
    (hl : (cloneRepository ω repoUrl parentFolderPath repoName all fs0).1.listing = some t)
    (hempty : t = "" ∨ parseBranchNames t = []) :
    (cloneRepository ω repoUrl parentFolderPath repoName all fs0).1.warned = true ∧
    (cloneRepository ω repoUrl parentFolderPath repoName all fs0).1.attempts = [] ∧
    (cloneRepository ω repoUrl parentFolderPath repoName all fs0).2 = Except.ok () := by
  obtain ⟨hok, _, hsome, _⟩ := cloneRepository_char ω repoUrl parentFolderPath repoName all fs0
  obtain ⟨hwid, _⟩ := hsome t hl
  obtain ⟨hw, ha⟩ := hwid hempty
  exact ⟨hw, ha, hok⟩

/-- C9 witness: a run whose `ls-remote` returns the empty string. -/
theorem c9_empty_listing_soft_fail_witness :
    (cloneRepository okOracle "u" "root" "repo" true []).1.warned = true ∧
    (cloneRepository okOracle "u" "root" "repo" true []).1.attempts = [] ∧
    (cloneRepository okOracle "u" "root" "repo" true []).2 = Except.ok () :=
  c9_empty_listing_soft_fail okOracle "u" "root" "repo" true [] "" (by decide) (Or.inl rfl)

/-- C1 counterexample: for the BranchSet `["develop"]` — containing neither
`main` nor `master` — a single-branch run still makes one materialization
attempt, for `master`: the attempt fails at checkout and leaves a
`root/repo/master` folder behind, so it is not a silent no-op. -/
theorem c1_silent_noop_counterexample :
    (cloneRepository oracleOnlyDevelop "u" "root" "repo" false []).1.discovered
        = some ["develop"] ∧
    (cloneRepository oracleOnlyDevelop "u" "root" "repo" false []).1.attempts
        = ["master"] ∧
    (cloneRepository oracleOnlyDevelop "u" "root" "repo" false []).1.outcomes
        = [Outcome.failed "pathspec master did not match"] ∧
    (cloneRepository oracleOnlyDevelop "u" "root" "repo" false []).1.fs.contains
        "root/repo/master" = true := by
  decide

/-- C1 (amended): with `cloneAllBranches` false, exactly one materialization
attempt is made: for `main` when `main` is in the discovered BranchSet, and
for `master` otherwise — even when `master` is not in the BranchSet either. -/
theorem c1_single_branch_selection (ω : Oracle)
    (repoUrl parentFolderPath repoName : String) (fs0 : List String) (bs : List String)
    (hd : (cloneRepository ω repoUrl parentFolderPath repoName false fs0).1.discovered
      = some bs)
    (hne : ¬ bs = []) :
    (cloneRepository ω repoUrl parentFolderPath repoName false fs0).1.attempts
      = [if bs.contains "main" then "main" else "master"] := by
  obtain ⟨_, _, _, hatt⟩ := cloneRepository_char ω repoUrl parentFolderPath repoName false fs0
  simpa [hne] using hatt bs hd

/-- C1 witness: a remote with branches `main` and `x` gets exactly the
attempt `main`. -/
theorem c1_single_branch_selection_witness :
    (cloneRepository oracleMainX "u" "root" "repo" false []).1.attempts = ["main"] := by
  have h := c1_single_branch_selection oracleMainX "u" "root" "repo" [] ["main", "x"]
    (by decide) (by decide)
  exact h.trans (by decide)

/-- C3 counterexample: the branches `feat/a` and `feat:a` sanitize to the same
folder, so an all-branches run makes its N = 2 attempts in order but computes
the same target path twice — the second attempt is skipped by the existence
gate. -/
theorem c3_distinct_paths_counterexample :
    (cloneRepository oracleColliding "u" "root" "repo" true []).1.discovered
        = some ["feat/a", "feat:a"] ∧
    (cloneRepository oracleColliding "u" "root" "repo" true []).1.attempts
        = ["feat/a", "feat:a"] ∧
    targetPath (pathJoin "root" "repo") "feat/a"
        = targetPath (pathJoin "root" "repo") "feat:a" ∧
    (cloneRepository oracleColliding "u" "root" "repo" true []).1.outcomes
        = [Outcome.done, Outcome.skipped] := by
  decide

/-- C3 (amended): with `cloneAllBranches` true, exactly one materialization
attempt is made per discovered branch, in remote-reported order; the computed
target paths are pairwise distinct whenever the sanitized branch names are. -/
theorem c3_all_branches_attempts (ω : Oracle)
    (repoUrl parentFolderPath repoName : String) (fs0 : List String) (bs : List String)
    (hd : (cloneRepository ω repoUrl parentFolderPath repoName true fs0).1.discovered
      = some bs) :
    (cloneRepository ω repoUrl parentFolderPath repoName true fs0).1.attempts = bs ∧
    ((bs.map sanitizeFolderName).Nodup →
      (bs.map (targetPath (pathJoin parentFolderPath repoName))).Nodup) := by
  constructor
  · obtain ⟨_, _, _, hatt⟩ := cloneRepository_char ω repoUrl parentFolderPath repoName true fs0
    have h := hatt bs hd
    by_cases hb : bs = []
    · simpa [hb] using h
    · simpa [hb] using h
  · intro hnd
    have hmm : bs.map (targetPath (pathJoin parentFolderPath repoName))
        = (bs.map sanitizeFolderName).map (pathJoin (pathJoin parentFolderPath repoName)) := by
      rw [List.map_map]
      rfl
    rw [hmm]
    exact hnd.map (pathJoin_right_injective _)

/-- C3 witness: a remote with branches `a` and `b` gets both attempts in order
and two distinct target paths. -/
theorem c3_all_branches_attempts_witness :
    (cloneRepository oracleAB "u" "root" "repo" true []).1.attempts = ["a", "b"] ∧
    ((["a", "b"] : List String).map (targetPath (pathJoin "root" "repo"))).Nodup := by
  have h := c3_all_branches_attempts oracleAB "u" "root" "repo" [] ["a", "b"] (by decide)
  exact ⟨h.1, h.2 (by decide)⟩

/-! ## The origin-substring decision and remote-configuration idempotency -/

/-- The embedded `includes` is true exactly on infix occurrences. -/
theorem jsIncludesL_iff (l pat : List Char) :
    jsIncludesL l pat = true ↔ ∃ a b, l = a ++ pat ++ b := by
  unfold jsIncludesL
  rw [List.any_eq_true]
  constructor
  · rintro ⟨tl, htl, hp⟩
    rw [List.mem_tails] at htl
    rw [ List.isPrefixOf_iff_prefix] at hp
    obtain ⟨b, hb⟩ := hp
    obtain ⟨a, ha⟩ := htl
    refine ⟨a, b, ?_⟩
    rw [← ha, ← hb]
    rw [List.append_assoc]
  · rintro ⟨a, b, rfl⟩
    refine ⟨pat ++ b, ?_, ?_⟩
    · rw [List.mem_tails]
      exact ⟨a, (List.append_assoc a pat b).symm⟩
    · rw [ List.isPrefixOf_iff_prefix]
      exact ⟨b, rfl⟩

/-- Every member of a line list occurs inside the joined text. -/
theorem mem_joinLines_exists (x : List Char) :
    ∀ L : List (List Char), x ∈ L → ∃ a b, joinLines L = a ++ x ++ b := by
  intro L
  induction L with
  | nil =>
    intro h
    exact absurd h (List.not_mem_nil x)
  | cons l ls ih =>
    intro h
    cases ls with
    | nil =>
      have hx : x = l := List.mem_singleton.mp h
      subst hx
      exact ⟨[], [], by simp [joinLines]⟩
    | cons l2 ls2 =>
      rcases List.mem_cons.mp h with h' | h'
      · subst h'
        exact ⟨[], '\n' :: joinLines (l2 :: ls2), by simp [joinLines]⟩
      · obtain ⟨a, b, hab⟩ := ih h'
        exact ⟨l ++ '\n' :: a, b,
          by simp [joinLines, hab, List.append_assoc, List.cons_append]⟩

/-- A remote actually named `origin` makes the rendered listing pass the
substring test. -/
theorem chooseSetUrl_of_mem (rs : List (String × String)) (v : String)
    (h : ("origin", v) ∈ rs) : chooseSetUrl (listRemotesText rs) = true := by
  unfold chooseSetUrl jsIncludes listRemotesText
  rw [show (⟨joinLines (rs.map (fun r => r.1.data))⟩ : String).data
        = joinLines (rs.map (fun r => r.1.data)) from rfl]
  rw [jsIncludesL_iff]
  apply mem_joinLines_exists
  exact List.mem_map.mpr ⟨("origin", v), h, rfl⟩

/-- Repointing a remote keeps the table's names. -/
theorem gitSetUrl_map_fst (rs : List (String × String)) (n u : String) :
    (gitSetUrl rs n u).map Prod.fst = rs.map Prod.fst := by
  unfold gitSetUrl
  rw [List.map_map]
  apply List.map_congr_left
  intro a _
  by_cases h : a.1 = n
  · simp [Function.comp, h]
  · simp [Function.comp, beq_eq_false_iff_ne.mpr h]

/-- A table with no remote named `origin` has no origin entries. -/
theorem originEntries_nil_of_none (rs : List (String × String))
    (h : ∀ r ∈ rs, ¬ r.1 = "origin") : originEntries rs = [] := by
  unfold originEntries
  rw [List.filter_eq_nil_iff]
  intro a ha
  simp [beq_eq_false_iff_ne.mpr (h a ha)]

/-- Repointing `origin` in a table with no remote of that name is a no-op. -/
theorem gitSetUrl_of_none (rs : List (String × String)) (u : String)
    (h : ∀ r ∈ rs, ¬ r.1 = "origin") : gitSetUrl rs "origin" u = rs := by
  unfold gitSetUrl
  conv_rhs => rw [← List.map_id rs]
  apply List.map_congr_left
  intro a ha
  simp [beq_eq_false_iff_ne.mpr (h a ha)]

/-- With unique names and `origin` present, repointing leaves exactly one
`origin` entry, at the new URL. -/
theorem originEntries_gitSetUrl (rs : List (String × String)) (url v : String)
    (hnd : (rs.map Prod.fst).Nodup) (hm : ("origin", v) ∈ rs) :
    originEntries (gitSetUrl rs "origin" url) = [("origin", url)] := by
  induction rs with
  | nil => cases hm
  | cons a rest ih =>
    rw [List.map_cons, List.nodup_cons] at hnd
    by_cases ha : a.1 = "origin"
    · have hrest : ∀ r ∈ rest, ¬ r.1 = "origin" := by
        intro r hr hro
        exact hnd.1 (by
          rw [ha, ← hro]
          exact List.mem_map.mpr ⟨r, hr, rfl⟩)
      unfold gitSetUrl originEntries
      rw [List.map_cons, List.filter_cons]
      have hfa : ((if a.1 == "origin" then ("origin", url) else a) : String × String)
          = ("origin", url) := by
        simp [ha]
      rw [hfa]
      have h1 : List.map (fun r => if r.1 == "origin" then (("origin", url) : String × String) else r) rest
          = rest := gitSetUrl_of_none rest url hrest
      rw [h1]
      have h2 : List.filter (fun r => r.1 == "origin") rest = [] :=
        originEntries_nil_of_none rest hrest
      simp [h2]
    · have hm' : ("origin", v) ∈ rest := by
        rcases List.mem_cons.mp hm with h' | h'
        · exact absurd (congrArg Prod.fst h'.symm) ha
        · exact h'
      have hstep : gitSetUrl (a :: rest) "origin" url = a :: gitSetUrl rest "origin" url := by
        unfold gitSetUrl
        rw [List.map_cons]
        simp [beq_eq_false_iff_ne.mpr ha]
      rw [hstep]
      unfold originEntries
      rw [List.filter_cons]
      have hpa : ((a.1 == "origin") : Bool) = false := beq_eq_false_iff_ne.mpr ha
      simp only [hpa, Bool.false_eq_true, if_false]
      exact ih hnd.2 hm'

/-- C6 counterexample: a table whose only remote is `my-origin` has unique
names, yet its rendered listing makes the substring test hit, so both runs
route to set-url on the nonexistent `origin`: the table is left unchanged and
after two runs no remote named `origin` exists, let alone one at the URL. -/
theorem c6_my_origin_counterexample :
    configureOriginModel (configureOriginModel [("my-origin", "x")] "u") "u"
      = [("my-origin", "x")] ∧
    originEntries (configureOriginModel (configureOriginModel [("my-origin", "x")] "u") "u")
      = [] ∧
    (([("my-origin", "x")] : List (String × String)).map Prod.fst).Nodup := by
  refine ⟨by decide, by decide, by decide⟩

/-- C6 (amended): on the modelled backend, running the create-or-repoint step
twice with the same URL leaves exactly one `origin` remote, pointing at that
URL — the second run necessarily takes the set-url path, not add — provided
the table's names are unique and the substring test is accurate on the
initial table (the listing mentions `origin` only if a remote named `origin`
exists). -/
theorem c6_remote_config_idempotent (rs : List (String × String)) (url : String)
    (hnd : (rs.map Prod.fst).Nodup)
    (hacc : chooseSetUrl (listRemotesText rs) = true → ∃ v, ("origin", v) ∈ rs) :
    originEntries (configureOriginModel (configureOriginModel rs url) url)
      = [("origin", url)] := by
  by_cases hc : chooseSetUrl (listRemotesText rs) = true
  · obtain ⟨v, hv⟩ := hacc hc
    rw [show configureOriginModel rs url = gitSetUrl rs "origin" url from by
      unfold configureOriginModel
      rw [if_pos hc]]
    have h1 : originEntries (gitSetUrl rs "origin" url) = [("origin", url)] :=
      originEntries_gitSetUrl rs url v hnd hv
    have hm1 : ("origin", url) ∈ gitSetUrl rs "origin" url := by
      have hmem : ("origin", url) ∈ originEntries (gitSetUrl rs "origin" url) := by
        rw [h1]
        exact List.mem_singleton_self _
      exact List.mem_of_mem_filter hmem
    have hc2 : chooseSetUrl (listRemotesText (gitSetUrl rs "origin" url)) = true :=
      chooseSetUrl_of_mem _ url hm1
    rw [show configureOriginModel (gitSetUrl rs "origin" url) url
          = gitSetUrl (gitSetUrl rs "origin" url) "origin" url from by
      unfold configureOriginModel
      rw [if_pos hc2]]
    have hnd2 : ((gitSetUrl rs "origin" url).map Prod.fst).Nodup := by
      rw [gitSetUrl_map_fst]
      exact hnd
    exact originEntries_gitSetUrl _ url url hnd2 hm1
  · have hnone : ∀ r ∈ rs, ¬ r.1 = "origin" := by
      intro r hr hro
      apply hc
      apply chooseSetUrl_of_mem rs r.2
      have hr' : r = ("origin", r.2) := by
        rw [← hro]
      rw [← hr']
      exact hr
    rw [show configureOriginModel rs url = gitAddRemote rs "origin" url from by
      unfold configureOriginModel
      rw [if_neg hc]]
    have hm1 : ("origin", url) ∈ gitAddRemote rs "origin" url := by
      unfold gitAddRemote
      exact List.mem_append_right _ (List.mem_singleton_self _)
    have hc2 : chooseSetUrl (listRemotesText (gitAddRemote rs "origin" url)) = true :=
      chooseSetUrl_of_mem _ url hm1
    rw [show configureOriginModel (gitAddRemote rs "origin" url) url
          = gitSetUrl (gitAddRemote rs "origin" url) "origin" url from by
      unfold configureOriginModel
      rw [if_pos hc2]]
    have hnd2 : ((gitAddRemote rs "origin" url).map Prod.fst).Nodup := by
      unfold gitAddRemote
      rw [List.map_append]
      refine List.Nodup.append hnd (by simp) ?_
      intro x hx hx2
      rw [List.map_singleton, List.mem_singleton] at hx2
      subst hx2
      obtain ⟨r, hr, hfst⟩ := List.mem_map.mp hx
      exact hnone r hr hfst
    exact originEntries_gitSetUrl _ url url hnd2 hm1

/-- C6 witness: starting from an empty remote table. -/
theorem c6_remote_config_idempotent_witness :
    originEntries (configureOriginModel (configureOriginModel [] "u") "u")
      = [("origin", "u")] :=
  c6_remote_config_idempotent [] "u" (by decide) (fun h => absurd h (by decide))

/-- C10: the create-or-repoint decision is exactly a substring test for
`origin` on the raw listing text; a table whose only remote is `my-origin`
still routes to set-url on `origin`, and on the trace model the configuration
call after `remote show` is set-url even though no remote named `origin`
exists. -/
theorem c10_origin_substring_routing :
    (∀ t : String, chooseSetUrl t = true
      ↔ ∃ a b, t.data = a ++ ("origin" : String).data ++ b) ∧
    (∀ r ∈ ([("my-origin", "u")] : List (String × String)), ¬ r.1 = "origin") ∧
    chooseSetUrl (listRemotesText [("my-origin", "u")]) = true ∧
    configureOriginModel [("my-origin", "u")] "URL"
      = gitSetUrl [("my-origin", "u")] "origin" "URL" ∧
    (cloneBranchToFolder oracleMyOrigin "u" "b" "p" (initSt [])).1.tr
      = [BCall.initRepo "p/b", BCall.listRemotes "p/b", BCall.setUrl "p/b" "origin" "u",
         BCall.fetch "p/b", BCall.checkout "p/b" "b"] := by
  refine ⟨fun t => jsIncludesL_iff t.data ("origin" : String).data, by decide, by decide,
    by decide, by decide⟩

/-- C10 witness: a text containing `origin` strictly inside routes to set-url. -/
theorem c10_origin_substring_routing_witness :
    chooseSetUrl "xoriginy" = true :=
  (c10_origin_substring_routing.1 "xoriginy").mpr ⟨['x'], ['y'], by decide⟩
